import Mathlib

/-!
Verification of the BlockArt ink-miner (CPSC 416 project 1 style repository).

We shallowly embed the Go sources `src/miner/ink-miner.go` and
`src/blockartlib/blockartlib.go` into Lean.  Machine integers (`uint32`,
`int`) are modelled as `Nat`/`Int` with explicit reduction modulo `2^32`
where Go would wrap.  Go strings in this program are ASCII byte strings, so
we model a Go string as a Lean `String` and its bytes as the list of code
points of its characters (`strBytes`); for ASCII data this coincides with
Go's UTF-8 bytes.  Fallible or possibly non-terminating code (the unbounded
nonce search in `calculateHash`, out-of-range slice indexing) is modelled
with `Option`, `none` meaning a panic or non-termination.
-/

set_option maxRecDepth 100000
set_option maxHeartbeats 4000000

deriving instance DecidableEq for Except

namespace BlockArt

/-! ## Bytes and MD5 (`crypto/md5` + `encoding/hex` as used by the miner) -/

/-- The bytes of a Go string.  All strings manipulated by the miner are
ASCII, so the UTF-8 bytes are exactly the code points of the characters. -/
def strBytes (s : String) : List Nat := s.data.map Char.toNat

/-- 2^32, the modulus for Go `uint32` arithmetic. -/
def mod32 : Nat := 4294967296

/-- Bitwise complement on 32-bit words represented as `Nat`. -/
def not32 (x : Nat) : Nat := x ^^^ 4294967295

/-- 32-bit left rotation. -/
def rotl32 (x n : Nat) : Nat := ((x <<< n) ||| (x >>> (32 - n))) % mod32

/-- The MD5 sine-derived constant table (RFC 1321). -/
def md5K : List Nat :=
  [3614090360, 3905402710, 606105819, 3250441966, 4118548399, 1200080426, 2821735955, 4249261313,
   1770035416, 2336552879, 4294925233, 2304563134, 1804603682, 4254626195, 2792965006, 1236535329,
   4129170786, 3225465664, 643717713, 3921069994, 3593408605, 38016083, 3634488961, 3889429448,
   568446438, 3275163606, 4107603335, 1163531501, 2850285829, 4243563512, 1735328473, 2368359562,
   4294588738, 2272392833, 1839030562, 4259657740, 2763975236, 1272893353, 4139469664, 3200236656,
   681279174, 3936430074, 3572445317, 76029189, 3654602809, 3873151461, 530742520, 3299628645,
   4096336452, 1126891415, 2878612391, 4237533241, 1700485571, 2399980690, 4293915773, 2240044497,
   1873313359, 4264355552, 2734768916, 1309151649, 4149444226, 3174756917, 718787259, 3951481745]

/-- The MD5 per-round left-rotation amounts (RFC 1321). -/
def md5S : List Nat :=
  [7, 12, 17, 22, 7, 12, 17, 22, 7, 12, 17, 22, 7, 12, 17, 22,
   5, 9, 14, 20, 5, 9, 14, 20, 5, 9, 14, 20, 5, 9, 14, 20,
   4, 11, 16, 23, 4, 11, 16, 23, 4, 11, 16, 23, 4, 11, 16, 23,
   6, 10, 15, 21, 6, 10, 15, 21, 6, 10, 15, 21, 6, 10, 15, 21]

/-- One MD5 round applied to the state `(a, b, c, d)`. -/
def md5Round (m : List Nat) (st : Nat × Nat × Nat × Nat) (i : Nat) :
    Nat × Nat × Nat × Nat :=
  let (a, b, c, d) := st
  let fg : Nat × Nat :=
    if i < 16 then ((b &&& c) ||| (not32 b &&& d), i)
    else if i < 32 then ((d &&& b) ||| (not32 d &&& c), (5 * i + 1) % 16)
    else if i < 48 then (b ^^^ c ^^^ d, (3 * i + 5) % 16)
    else (c ^^^ (b ||| not32 d), (7 * i) % 16)
  let f := (fg.1 + a + md5K.getD i 0 + m.getD fg.2 0) % mod32
  (d, (b + rotl32 f (md5S.getD i 0)) % mod32, b, c)

/-- Process one padded 64-byte chunk. -/
def md5Chunk (st : Nat × Nat × Nat × Nat) (chunk : List Nat) :
    Nat × Nat × Nat × Nat :=
  let m := (List.range 16).map fun i =>
    chunk.getD (4 * i) 0 + 256 * chunk.getD (4 * i + 1) 0 +
      65536 * chunk.getD (4 * i + 2) 0 + 16777216 * chunk.getD (4 * i + 3) 0
  let r := (List.range 64).foldl (md5Round m) st
  ((st.1 + r.1) % mod32, (st.2.1 + r.2.1) % mod32,
   (st.2.2.1 + r.2.2.1) % mod32, (st.2.2.2 + r.2.2.2) % mod32)

/-- Little-endian byte decomposition, `k` bytes. -/
def leBytes (k n : Nat) : List Nat := (List.range k).map fun i => (n >>> (8 * i)) % 256

/-- MD5 padding: a `0x80` byte, zeros to 56 mod 64, then the bit length as a
little-endian 64-bit integer. -/
def md5Pad (msg : List Nat) : List Nat :=
  msg ++ [128] ++ List.replicate ((119 - msg.length % 64) % 64) 0 ++ leBytes 8 (8 * msg.length)

/-- Split a byte list into 64-byte chunks (structural recursion on a step
counter so that the definition reduces inside the kernel; `l.length` steps
always suffice). -/
def chunks64Aux : Nat → List Nat → List (List Nat)
  | 0, _ => []
  | _, [] => []
  | n + 1, x :: xs => ((x :: xs).take 64) :: chunks64Aux n ((x :: xs).drop 64)

/-- Split a byte list into 64-byte chunks. -/
def chunks64 (l : List Nat) : List (List Nat) := chunks64Aux l.length l

/-- Lowercase hex digit. -/
def hexDigit (n : Nat) : Char := if n < 10 then Char.ofNat (48 + n) else Char.ofNat (87 + n)

/-- Two lowercase hex characters of a byte. -/
def byteHex (b : Nat) : List Char := [hexDigit (b / 16), hexDigit (b % 16)]

/-- MD5 digest of a byte list, as the usual lowercase hex string. -/
def md5hex (msg : List Nat) : String :=
  let st := (chunks64 (md5Pad msg)).foldl md5Chunk
    (1732584193, 4023233417, 2562383102, 271733878)
  String.mk ((leBytes 4 st.1 ++ leBytes 4 st.2.1 ++ leBytes 4 st.2.2.1 ++
    leBytes 4 st.2.2.2).flatMap byteHex)

/-- MD5 of a (byte) string, hex encoded. -/
def md5hexS (s : String) : String := md5hex (strBytes s)

example : md5hexS "" = "d41d8cd98f00b204e9800998ecf8427e" := by decide
example : md5hexS "abc" = "900150983cd24fb0d6963f7d28e17f72" := by decide
example : md5hexS "The quick brown fox jumps over the lazy dog" =
    "9e107d9d372bb6826bd81d3542a419d6" := by decide

/-! ## Data model (`ink-miner.go` types) -/

/-- Go `string(i)` for an `int` `i`: the UTF-8 string of the rune with that
code point, or U+FFFD when `i` is negative, a surrogate, or above the rune
range. -/
def goRuneString (i : Int) : String :=
  if 0 ≤ i ∧ (i < 55296 ∨ (57343 < i ∧ i ≤ 1114111)) then
    String.singleton (Char.ofNat i.toNat)
  else "�"

/-- An operation record (`Operation` in both Go files). -/
structure Operation where
  appShape : String
  opSig : String
  pubKeyArtNode : String
deriving DecidableEq, Repr, Inhabited

/-- Per-miner ink account (`InkAccount`); the Go fields are `uint32`. -/
structure InkAccount where
  inkMined : Nat
  inkSpent : Nat
  inkRemain : Nat
deriving DecidableEq, Repr, Inhabited

/-- Modelled from the spec: `SvgHelper.MapPoint` — the `src/SvgHelper`
package is not under `src/`.  Per spec §3 a canvas-ownership-map entry is
an (owning-miner-key, reference-count) pair. -/
structure MapPoint where
  owner : String
  count : Nat
deriving DecidableEq, Repr, Inhabited

/-- A Go `map[string]V` modelled as an association list (first binding for a
key is the live one; our update replaces in place). -/
abbrev GoMap (V : Type) := List (String × V)

abbrev InkMap := GoMap InkAccount
abbrev CanvasMap := GoMap MapPoint
abbrev CanvasOpsMap := GoMap (List String)

/-- Go map read that distinguishes presence (`v, ok := m[k]`). -/
def mapFind? {V : Type} (m : GoMap V) (k : String) : Option V :=
  match m.find? (fun p => p.1 == k) with
  | some p => some p.2
  | none => none

/-- Go map read without the `ok` flag: missing keys read as the zero value. -/
def mapGetD {V : Type} (m : GoMap V) (k : String) (zero : V) : V :=
  (mapFind? m k).getD zero

/-- Go map write `m[k] = v`: replace the binding if present, else add it. -/
def mapSet {V : Type} (m : GoMap V) (k : String) (v : V) : GoMap V :=
  match m with
  | [] => [(k, v)]
  | (k', v') :: rest => if k' = k then (k, v) :: rest else (k', v') :: mapSet rest k v

/-- A block (`Block` in `ink-miner.go`).  `nonce` is a `uint32`, `index` a Go
`int`.  The three maps hold the contents observed through the block's map
references at the time of interest; the reference (aliasing) behaviour of Go
maps is modelled separately by `HBlock`/`Heap` below. -/
structure Block where
  prevHash : String
  nonce : Nat
  ops : List Operation
  noOpBlock : Bool
  pubKeyMiner : String
  index : Int
  minerInks : InkMap
  canvasInks : CanvasMap
  canvasOperations : CanvasOpsMap
deriving DecidableEq, Repr, Inhabited

/-- The settings fields of `MinerNetSettings` that the embedded code reads. -/
structure MinerSettings where
  genesisBlockHash : String
  inkPerOpBlock : Nat
  inkPerNoOpBlock : Nat
  powDifficultyOpBlock : Nat
  powDifficultyNoOpBlock : Nat
deriving DecidableEq, Repr, Inhabited

/-- The error values shared by `blockartlib.go` and `ink-miner.go`. -/
inductive ArtError where
  | disconnected (addr : String)
  | insufficientInk (remaining : Nat)
  | invalidShapeSvgString (svg : String)
  | shapeSvgStringTooLong (svg : String)
  | invalidShapeHash (h : String)
  | shapeOwner (h : String)
  | outOfBounds
  | shapeOverlap (h : String)
  | invalidBlockHash (h : String)
  | invalidMinerPK (k : String)
deriving DecidableEq, Repr

/-! ## Hashing and proof of work (`ink-miner.go:439-488`) -/

/-- `convertOpToString` (ink-miner.go:461-467): concatenates
`AppShape + OpSig + PubKeyArtNode` over the operations in order. -/
def convertOpToString (ops : List Operation) : String :=
  ops.foldl (fun acc op => acc ++ (op.appShape ++ op.opSig ++ op.pubKeyArtNode)) ""

/-- `blkToString` (ink-miner.go:439-441): note that Go's `string(b.Index)`
yields the UTF-8 rune of the index, not a decimal numeral. -/
def blkToString (b : Block) : String :=
  b.prevHash ++ convertOpToString b.ops ++ b.pubKeyMiner ++ goRuneString b.index

/-- `computeNonceSecretHash` (ink-miner.go:475-480): hex MD5 of the
concatenation of its two arguments. -/
def computeNonceSecretHash (nonce secret : String) : String :=
  md5hexS (nonce ++ secret)

/-- `hasNZeros` (ink-miner.go:469-472): the hash ends with `n` `'0'`
characters (`strings.HasSuffix` against `strings.Repeat("0", n)`). -/
def hasNZeros (hash : String) (n : Nat) : Bool :=
  List.isSuffixOf (List.replicate n '0') hash.data

/-- The nonce-search loop of `calculateHash` (ink-miner.go:444-458).  Go
scans `j = 0, 1, 2, ...` without bound and formats each `j` in decimal
(`strconv.FormatInt(j, 10)`); we return the counter `j` itself next to the
hash, and carry explicit fuel: `none` models a search that has not
terminated within `fuel` trials. -/
def findNonce (blockString : String) (difficulty : Nat) : Nat → Nat → Option (String × Nat)
  | 0, _ => none
  | fuel + 1, j =>
    let hash := computeNonceSecretHash blockString (Nat.repr j)
    if hasNZeros hash difficulty then some (hash, j)
    else findNonce blockString difficulty fuel (j + 1)

/-- `calculateHash` (ink-miner.go:444-458). -/
def calculateHash (fuel : Nat) (b : Block) (powDifficulty : Nat) : Option (String × Nat) :=
  findNonce (blkToString b) powDifficulty fuel 0

/-- `strconv.ParseUint(strconv.FormatInt(j,10), 10, 32)` followed by the
`uint32` conversion, as applied to a found nonce counter `j ≥ 0`: the
decimal numeral round-trips, and on range error `ParseUint` returns the
maximum (the ignored-error path of the Go code). -/
def goParseUint32 (j : Nat) : Nat := if j < mod32 then j else mod32 - 1

/-- The hash the miner associates to a stored block: `calculateHash` hashes
`blkToString b` concatenated with the decimal nonce, so a block `b` whose
nonce was found by the search has block-hash
`computeNonceSecretHash (blkToString b) (Nat.repr b.nonce)`. -/
def blockHashOf (b : Block) : String :=
  computeNonceSecretHash (blkToString b) (Nat.repr b.nonce)

/-- The difficulty the code selects for a block: by its `NoOpBlock` flag
(see `validateBlockHashNonce`, ink-miner.go:1235-1242). -/
def flagDifficulty (s : MinerSettings) (b : Block) : Nat :=
  if b.noOpBlock then s.powDifficultyNoOpBlock else s.powDifficultyOpBlock

/-- `isSentChainLonger` (ink-miner.go:482-488). -/
def isSentChainLonger (newBlocks blockChain : List Block) : Bool :=
  blockChain.length < newBlocks.length

/-! ## Block generation (`ink-miner.go:328-437`) -/

/-- `generateFirstBlock` (ink-miner.go:416-437). -/
def generateFirstBlock (s : MinerSettings) (myPubKeyStr : String) : Block :=
  { prevHash := s.genesisBlockHash
    nonce := 0
    ops := []
    noOpBlock := true
    pubKeyMiner := myPubKeyStr
    index := 1
    minerInks := [(myPubKeyStr, ⟨s.inkPerNoOpBlock, 0, s.inkPerNoOpBlock⟩)]
    canvasInks := []
    canvasOperations := [] }

/-- `generateNoOpBlock` (ink-miner.go:332-403).  `myPubKeyStr` models
`getPubKeyInStr(myPrivKey.PublicKey)` and `minerPubKey` the function's
argument (they coincide in `main`).  The ink update writes through the map
shared with the previous block; here we record the resulting contents
(value view), the aliasing itself is the subject of `generateNoOpBlockH`. -/
def generateNoOpBlock (fuel : Nat) (s : MinerSettings) (myPubKeyStr minerPubKey : String)
    (blockChain : List Block) : Option Block :=
  if blockChain.length < 1 then some (generateFirstBlock s myPubKeyStr)
  else
    let lastBlk := (blockChain.getLast?).getD default
    let difficulty := if lastBlk.noOpBlock then s.powDifficultyNoOpBlock
      else s.powDifficultyOpBlock
    match calculateHash fuel lastBlk difficulty with
    | none => none
    | some (lastBlkHash, _) =>
      let newInks : InkMap :=
        match mapFind? lastBlk.minerInks minerPubKey with
        | some acc => mapSet lastBlk.minerInks minerPubKey
            { acc with inkMined := (acc.inkMined + s.inkPerNoOpBlock) % mod32,
                       inkRemain := (acc.inkRemain + s.inkPerNoOpBlock) % mod32 }
        | none => mapSet lastBlk.minerInks minerPubKey
            ⟨s.inkPerNoOpBlock, 0, s.inkPerNoOpBlock⟩
      let blk : Block :=
        { prevHash := lastBlkHash
          nonce := 0
          ops := []
          noOpBlock := true
          pubKeyMiner := myPubKeyStr
          index := 1
          minerInks := newInks
          canvasInks := lastBlk.canvasInks
          canvasOperations := lastBlk.canvasOperations }
      match calculateHash fuel blk s.powDifficultyNoOpBlock with
      | none => none
      | some (_, j) => some { blk with nonce := goParseUint32 j }

/-- `mineNoOpBlocks` (ink-miner.go:328-330): append the generated block. -/
def mineNoOpBlocks (fuel : Nat) (s : MinerSettings) (myPubKeyStr minerPubKey : String)
    (blockChain : List Block) : Option (List Block) :=
  (generateNoOpBlock fuel s myPubKeyStr minerPubKey blockChain).map
    (fun blk => blockChain ++ [blk])

/-! ## Operation and chain validation (`ink-miner.go:1080-1303`) -/

/-- `contains` (ink-miner.go:1090-1097). -/
def containsMiner (miners : List String) (miner : String) : Bool :=
  miners.any (fun m => miner == m)

/-- `minersInBlockChain` (ink-miner.go:1080-1088). -/
def minersInBlockChain (bc : List Block) : List String :=
  bc.foldl (fun acc blk =>
    if containsMiner acc blk.pubKeyMiner then acc else acc ++ [blk.pubKeyMiner]) []

/-- `shapeInkCost` (ink-miner.go:1100-1102): a hard-coded 30 per shape. -/
def shapeInkCost (shapeSVG : String) : Nat := 30

/-- `costOfOperations` (ink-miner.go:1105-1113): `uint32` running sum. -/
def costOfOperations (ops : List Operation) : Nat :=
  ops.foldl (fun sum op => (sum + shapeInkCost op.appShape) % mod32) 0

/-- `totalInkSpentAndMinedByMiner` (ink-miner.go:1122-1140): returns
`(inkSpent, inkMined)`, both `uint32` running sums over the chain. -/
def totalInkSpentAndMinedByMiner (s : MinerSettings) (bc : List Block) (miner : String) :
    Nat × Nat :=
  bc.foldl (fun acc blk =>
    if miner = blk.pubKeyMiner then
      ((acc.1 + costOfOperations blk.ops) % mod32,
       (acc.2 + (if blk.noOpBlock then s.inkPerNoOpBlock else s.inkPerOpBlock)) % mod32)
    else acc) (0, 0)

/-- `validateSufficientInkMiner` (ink-miner.go:1144-1155). -/
def validateSufficientInkMiner (s : MinerSettings) (bc : List Block) (key : String) : Bool :=
  let t := totalInkSpentAndMinedByMiner s bc key
  t.1 ≤ t.2

/-- `validateSufficientInkAll` (ink-miner.go:1159-1170). -/
def validateSufficientInkAll (s : MinerSettings) (bc : List Block) : Bool :=
  (minersInBlockChain bc).all (fun miner => validateSufficientInkMiner s bc miner)

/-- `validateBlockHashNonce` (ink-miner.go:1235-1256).  The nonce check
compares the decimal strings `FormatInt(j,10)` and `FormatUint(b.Nonce,10)`;
decimal numerals of naturals are canonical, so this is `j = b.nonce`. -/
def validateBlockHashNonce (fuel : Nat) (s : MinerSettings) (b : Block) :
    Option (Bool × String) :=
  let difficulty := flagDifficulty s b
  if 1 < b.index ∧ ¬ hasNZeros b.prevHash difficulty then some (false, "")
  else
    match calculateHash fuel b difficulty with
    | none => none
    | some (currHash, j) => some (decide (j = b.nonce), currHash)

/-- `validateBlockOpSigs` (ink-miner.go:1260-1275). -/
def validateBlockOpSigs (b : Block) : Bool :=
  b.ops.all (fun op => computeNonceSecretHash b.pubKeyMiner op.appShape == op.opSig)

/-- The loop body of `validateBlockChain` (ink-miner.go:1282-1303), with the
`hashVal` accumulator (Go zero value `""` initially). -/
def validateBlockChainAux (fuel : Nat) (s : MinerSettings) :
    String → List Block → Option Bool
  | _, [] => some true
  | hashVal, b :: rest =>
    if 1 < b.index ∧ hashVal ≠ b.prevHash then some false
    else
      match validateBlockHashNonce fuel s b with
      | none => none
      | some (boolValidNonce, hashVal') =>
        if ¬ boolValidNonce ∨ ¬ validateBlockOpSigs b then some false
        else validateBlockChainAux fuel s hashVal' rest

/-- `validateBlockChain` (ink-miner.go:1282-1303). -/
def validateBlockChain (fuel : Nat) (s : MinerSettings) (bc : List Block) : Option Bool :=
  validateBlockChainAux fuel s "" bc

/-- `SendBlockchain` (ink-miner.go:991-1004): the received chain replaces
the local one exactly when it is strictly longer and both validations pass;
`none` models non-termination of the nonce re-search. -/
def sendBlockchain (fuel : Nat) (s : MinerSettings) (blockChain bc : List Block) :
    Option (List Block) :=
  if isSentChainLonger bc blockChain then
    if validateSufficientInkAll s bc then
      match validateBlockChain fuel s bc with
      | none => none
      | some ok => some (if ok then bc else blockChain)
    else some blockChain
  else some blockChain

/-! ## Art-node RPC surface of the miner (`ink-miner.go:735-959`) -/

/-- `AddShapeStruct` (shared by both files).  `sType` is the `ShapeType`
enum (`PATH = 0`). -/
structure AddShapeStruct where
  validateNum : Nat
  sType : Nat
  shapeSvgString : String
  fill : String
  stroke : String
  artNodePK : String
deriving DecidableEq, Repr, Inhabited

/-- `AddShapeReply`. -/
structure AddShapeReply where
  shapeHash : String
  blockHash : String
  inkRemaining : Nat
deriving DecidableEq, Repr, Inhabited

/-- `DelShapeArgs` (note: in Go `validateNum` and `shapeHash` are
unexported fields). -/
structure DelShapeArgs where
  validateNum : Nat
  shapeHash : String
  artNodePK : String
deriving DecidableEq, Repr, Inhabited

/-- The global miner state read by the RPC handlers: the chain, the
settings, the key-pair hex string `myKeyPairInString`, the public-key
string `getPubKeyInStr(myPrivKey.PublicKey)`, and the `currInkMined`
global that the main loop refreshes from the last block's ink map. -/
structure MinerState where
  blockChain : List Block
  settings : MinerSettings
  myKeyPairInString : String
  myPubKeyStr : String
  currInkMined : Nat
deriving DecidableEq, Repr, Inhabited

/-- Go `uint32(i)` for an `int` `i`: truncation to 32 bits (`Int.emod` is
non-negative for a positive modulus). -/
def goUint32OfInt (i : Int) : Nat := (i % (mod32 : Int)).toNat

/-- The svg string the miner builds in `AddShape` (ink-miner.go:737-738). -/
def svgPathString (args : AddShapeStruct) : String :=
  "<path d=\"" ++ args.shapeSvgString ++ "\" stroke=\"" ++ args.stroke ++
    "\" fill=\"" ++ args.fill ++ "\"/>"

/-- Modelled from the spec: the outcome of `SvgHelper.AddShapeToMap`
(`src/SvgHelper` is not under `src/`).  Per spec §4.1/§4.3 the helper
parses and rasterizes the shape against the supplied canvas map and
remaining ink, and either fails (invalid-shape, out-of-bounds,
shape-overlap, insufficient-ink — in particular it fails when the ink cost
exceeds the remaining ink) or returns the ink cost (a Go `int`) having
added the shape to the map.  We pass this outcome to the `AddShape`
embedding as an explicit argument. -/
abbrev SvgHelperResult := Except ArtError (Int × CanvasMap)

/-- `MinerRPC.AddShape` (ink-miner.go:735-803).  Notes on the source:
`blockChain[lastBlockIndex]` is evaluated before the `len == 0` test, so an
empty chain panics (`none`); the account is updated under the key
`myKeyPairInString` (the private-key hex), not the public-key string;
`totalInkSpentAndMinedByMiner` is taken over the chain before the append;
the new block carries all of the previous block's operations plus the new
one and the private-key string as `PubKeyMiner`; the trailing
`ValidateNum` wait loop only delays the reply (or blocks forever) and never
changes it, so the embedding returns the reply directly. -/
def minerAddShape (fuel : Nat) (st : MinerState) (args : AddShapeStruct)
    (svgResult : SvgHelperResult) : Option (Except ArtError (MinerState × AddShapeReply)) :=
  let svgStr := svgPathString args
  let remainInk : Int := st.currInkMined
  if st.blockChain.length = 0 then none
  else
    let lastBlk := (st.blockChain.getLast?).getD default
    match svgResult with
    | .error e => some (.error e)
    | .ok (spentInk, mutatedCanvas) =>
      let currentInkRemain : Int := remainInk - spentInk
      let pkStr := st.myPubKeyStr
      let shapeHash := computeNonceSecretHash svgStr pkStr
      let newOp : Operation := ⟨svgStr, shapeHash, args.artNodePK⟩
      let lastOne := st.blockChain.length - 1
      match calculateHash fuel lastBlk st.settings.powDifficultyOpBlock with
      | none => none
      | some (preHash, _) =>
        let newOps := lastBlk.ops ++ [newOp]
        let tot := totalInkSpentAndMinedByMiner st.settings st.blockChain pkStr
        let incAcc : InkAccount :=
          { inkMined := tot.2
            inkSpent := (goUint32OfInt spentInk + tot.1) % mod32
            inkRemain := goUint32OfInt currentInkRemain }
        let mInks := mapSet lastBlk.minerInks st.myKeyPairInString incAcc
        let myOps := mapGetD lastBlk.canvasOperations st.myKeyPairInString []
        let canvOps := mapSet lastBlk.canvasOperations st.myKeyPairInString
          (myOps ++ [svgStr ++ ":" ++ shapeHash])
        let newBlock : Block :=
          { prevHash := preHash
            nonce := 0
            ops := newOps
            noOpBlock := false
            pubKeyMiner := st.myKeyPairInString
            index := (lastOne : Int) + 1
            minerInks := mInks
            canvasInks := mutatedCanvas
            canvasOperations := canvOps }
        match calculateHash fuel newBlock st.settings.powDifficultyOpBlock with
        | none => none
        | some (blockHash, j) =>
          let minedBlock := { newBlock with nonce := goParseUint32 j }
          some (.ok ({ st with blockChain := st.blockChain ++ [minedBlock] },
            ⟨shapeHash, blockHash, goUint32OfInt currentInkRemain⟩))

/-- The reply of a terminating, successful `minerAddShape` run. -/
def addShapeReplyOf (r : Option (Except ArtError (MinerState × AddShapeReply))) :
    Option AddShapeReply :=
  match r with
  | some (.ok (_, reply)) => some reply
  | _ => none

/-- The chain of a terminating, successful `minerAddShape` run. -/
def addShapeChainOf (r : Option (Except ArtError (MinerState × AddShapeReply))) :
    Option (List Block) :=
  match r with
  | some (.ok (st, _)) => some st.blockChain
  | _ => none

/-- The scan of `MinerRPC.DeleteShape` (ink-miner.go:825-876) stops at the
first operation whose `OpSig` equals the requested hash. -/
def findOpBySig (ops : List Operation) (h : String) : Option Operation :=
  ops.find? (fun op => op.opSig == h)

/-- `MinerRPC.DeleteShape` (ink-miner.go:818-880).  All the actual deletion
logic in the source is commented out: on an owner match the handler only
reads `MinerInks[myKeyPairInString].inkRemain` from the last block and
returns it. -/
def minerDeleteShape (st : MinerState) (args : DelShapeArgs) : Except ArtError Nat :=
  match st.blockChain.getLast? with
  | none => .error (.invalidShapeHash args.shapeHash)
  | some lastBlk =>
    match findOpBySig lastBlk.ops args.shapeHash with
    | some op =>
      if args.artNodePK = op.pubKeyArtNode then
        .ok (mapGetD lastBlk.minerInks st.myKeyPairInString default).inkRemain
      else .error (.shapeOwner args.shapeHash)
    | none => .error (.invalidShapeHash args.shapeHash)

/-- The write loop of `MinerRPC.GetShapes` (ink-miner.go:898-900 and
906-908): `(*shapeHashes)[j] = ops[j].OpSig` for `j` below the operation
count.  Indexing at or past the slice length panics (`none`); the slice is
never grown. -/
def writeOpSigs : List Operation → Nat → List String → Option (List String)
  | [], _, dst => some dst
  | op :: rest, j, dst =>
    if j < dst.length then writeOpSigs rest (j + 1) (dst.set j op.opSig)
    else none

/-- The full write of `GetShapes` starting at index 0. -/
def writeOpSigsAt (ops : List Operation) (dst : List String) : Option (List String) :=
  writeOpSigs ops 0 dst

/-- The descending scan of `GetShapes` (ink-miner.go:903-911): `i + 1` here
stands for loop index `i`; at a match the code reads `blockChain[i-1].Ops`,
which panics when `i = 0`. -/
def getShapesScan (bc : List Block) (blockHash : String) (dst : List String) :
    Nat → Option (Except ArtError (List String))
  | 0 => some (.error (.invalidBlockHash blockHash))
  | i + 1 =>
    let b := bc.getD i default
    if b.prevHash = blockHash then
      if i = 0 then none
      else
        match writeOpSigsAt (bc.getD (i - 1) default).ops dst with
        | none => none
        | some d => some (.ok d)
    else getShapesScan bc blockHash dst i

/-- `MinerRPC.GetShapes` (ink-miner.go:882-913). -/
def minerGetShapes (fuel : Nat) (st : MinerState) (blockHash : String)
    (shapeHashes : List String) : Option (Except ArtError (List String)) :=
  if st.blockChain.length = 0 then some (.error (.invalidBlockHash blockHash))
  else
    let lastBlk := (st.blockChain.getLast?).getD default
    let noOp := flagDifficulty st.settings lastBlk
    match calculateHash fuel lastBlk noOp with
    | none => none
    | some (lastblockHash, _) =>
      if lastblockHash = blockHash then
        match writeOpSigsAt lastBlk.ops shapeHashes with
        | none => none
        | some d => some (.ok d)
      else getShapesScan st.blockChain blockHash shapeHashes st.blockChain.length

/-! ## Client library (`blockartlib.go`) -/

/-- What a client `AddShape` call produces when the RPC itself succeeds:
the request it sent and the tuple it returns to the application. -/
structure ClientAddShapeOutcome where
  request : AddShapeStruct
  shapeHash : String
  blockHash : String
  inkRemaining : Nat
deriving DecidableEq, Repr, Inhabited

/-- `MyCanvas.AddShape` (blockartlib.go:299-319).  The length gate and the
transparency gate run before any request is built; on the success path the
named return values `shapeHash`, `blockHash`, `inkRemaining` are never
assigned from `reply`, so the zero values `("", "", 0)` are returned no
matter what the miner answered.  `len` on a Go string counts bytes; the
strings here are ASCII so this is the character count. -/
def clientAddShape (shapeType : Nat) (shapeSvgString fill stroke artPKStr : String)
    (reply : AddShapeReply) : Except ArtError ClientAddShapeOutcome :=
  if 128 < shapeSvgString.length then .error (.shapeSvgStringTooLong shapeSvgString)
  else if stroke = fill ∧ fill = "transparent" then
    .error (.invalidShapeSvgString "fill and stroke can't both be transparent")
  else
    .ok { request := { validateNum := 1, sType := shapeType,
                       shapeSvgString := shapeSvgString, fill := fill,
                       stroke := stroke, artNodePK := artPKStr }
          shapeHash := ""
          blockHash := ""
          inkRemaining := 0 }

/-- `MyCanvas.DeleteShape` (blockartlib.go:345-349): the request is the
zero-valued `DelShapeArgs{}`; the caller's `validateNum` and `shapeHash`
are discarded. -/
def clientDeleteShapeRequest (validateNum : Nat) (shapeHash : String) : DelShapeArgs :=
  { validateNum := 0, shapeHash := "", artNodePK := "" }

/-! ## Reference-semantics view of Go maps (for the immutability claim)

Go maps are reference types: `Block.MinerInks` etc. are pointers into a
heap of hash tables, and `generateNoOpBlock` copies the pointer of the
previous block's map and writes through it.  `HBlock` stores map
references; `Heap` stores the map contents. -/

/-- A block holding references (heap indices) to its three maps. -/
structure HBlock where
  prevHash : String
  nonce : Nat
  ops : List Operation
  noOpBlock : Bool
  pubKeyMiner : String
  index : Int
  minerInksRef : Nat
  canvasInksRef : Nat
  canvasOpsRef : Nat
deriving DecidableEq, Repr, Inhabited

/-- The heap of map objects. -/
structure Heap where
  inkMaps : List InkMap
  canvasMaps : List CanvasMap
  canvasOpsMaps : List CanvasOpsMap
deriving DecidableEq, Repr, Inhabited

/-- Dereference an ink-map. -/
def Heap.inkAt (hp : Heap) (r : Nat) : InkMap := hp.inkMaps.getD r []

/-- Write an ink-map in place. -/
def Heap.setInkAt (hp : Heap) (r : Nat) (m : InkMap) : Heap :=
  { hp with inkMaps := hp.inkMaps.set r m }

/-- The value of an `HBlock` under a heap (the maps it observes). -/
def HBlock.val (b : HBlock) (hp : Heap) : Block :=
  { prevHash := b.prevHash
    nonce := b.nonce
    ops := b.ops
    noOpBlock := b.noOpBlock
    pubKeyMiner := b.pubKeyMiner
    index := b.index
    minerInks := hp.inkAt b.minerInksRef
    canvasInks := hp.canvasMaps.getD b.canvasInksRef []
    canvasOperations := hp.canvasOpsMaps.getD b.canvasOpsRef [] }

/-- `generateFirstBlock` under reference semantics: `make(map[...])`
allocates three fresh maps. -/
def generateFirstBlockH (s : MinerSettings) (myPubKeyStr : String) (hp : Heap) :
    HBlock × Heap :=
  ({ prevHash := s.genesisBlockHash
     nonce := 0
     ops := []
     noOpBlock := true
     pubKeyMiner := myPubKeyStr
     index := 1
     minerInksRef := hp.inkMaps.length
     canvasInksRef := hp.canvasMaps.length
     canvasOpsRef := hp.canvasOpsMaps.length },
   { inkMaps := hp.inkMaps ++ [[(myPubKeyStr, ⟨s.inkPerNoOpBlock, 0, s.inkPerNoOpBlock⟩)]]
     canvasMaps := hp.canvasMaps ++ [[]]
     canvasOpsMaps := hp.canvasOpsMaps ++ [[]] })

/-- `generateNoOpBlock` under reference semantics (ink-miner.go:332-403):
the new block copies the previous block's map references
(`MinerInks: lastBlk.MinerInks`, …) and the ink update
`oldMinerInks[minerPubKey] = …` writes through the shared reference. -/
def generateNoOpBlockH (fuel : Nat) (s : MinerSettings) (myPubKeyStr minerPubKey : String)
    (chain : List HBlock) (hp : Heap) : Option (HBlock × Heap) :=
  if chain.length < 1 then some (generateFirstBlockH s myPubKeyStr hp)
  else
    let lastBlk := (chain.getLast?).getD default
    let difficulty := if lastBlk.noOpBlock then s.powDifficultyNoOpBlock
      else s.powDifficultyOpBlock
    match calculateHash fuel (lastBlk.val hp) difficulty with
    | none => none
    | some (lastBlkHash, _) =>
      let oldMinerInks := hp.inkAt lastBlk.minerInksRef
      let newInks : InkMap :=
        match mapFind? oldMinerInks minerPubKey with
        | some acc => mapSet oldMinerInks minerPubKey
            { acc with inkMined := (acc.inkMined + s.inkPerNoOpBlock) % mod32,
                       inkRemain := (acc.inkRemain + s.inkPerNoOpBlock) % mod32 }
        | none => mapSet oldMinerInks minerPubKey
            ⟨s.inkPerNoOpBlock, 0, s.inkPerNoOpBlock⟩
      let hp' := hp.setInkAt lastBlk.minerInksRef newInks
      let blk : HBlock :=
        { prevHash := lastBlkHash
          nonce := 0
          ops := []
          noOpBlock := true
          pubKeyMiner := myPubKeyStr
          index := 1
          minerInksRef := lastBlk.minerInksRef
          canvasInksRef := lastBlk.canvasInksRef
          canvasOpsRef := lastBlk.canvasOpsRef }
      match calculateHash fuel (blk.val hp') s.powDifficultyNoOpBlock with
      | none => none
      | some (_, j) => some ({ blk with nonce := goParseUint32 j }, hp')

/-- `mineNoOpBlocks` under reference semantics. -/
def mineNoOpBlocksH (fuel : Nat) (s : MinerSettings) (myPubKeyStr minerPubKey : String)
    (chain : List HBlock) (hp : Heap) : Option (List HBlock × Heap) :=
  (generateNoOpBlockH fuel s myPubKeyStr minerPubKey chain hp).map
    (fun r => (chain ++ [r.1], r.2))

/-! ## Spec-side comparison definitions -/

/-- The ink-account invariant of spec §3: `remaining = mined − spent` and
`spent ≤ mined`. -/
def inkInv (a : InkAccount) : Prop :=
  a.inkSpent ≤ a.inkMined ∧ a.inkRemain = a.inkMined - a.inkSpent

instance (a : InkAccount) : Decidable (inkInv a) := by
  unfold inkInv; infer_instance

/-- Every account of an ink map satisfies the invariant. -/
def inkMapInv (m : InkMap) : Prop := ∀ p ∈ m, inkInv p.2

instance (m : InkMap) : Decidable (inkMapInv m) := by
  unfold inkMapInv; infer_instance

/-- Stated from the spec's words (§4.2 block hashing, claim C4): the byte
serialization of a block is parent-hash, the operation records in order,
the producer public key, the depth as a little-endian 32-bit integer and
the nonce as a little-endian 32-bit integer. -/
def specBlockSerialization (b : Block) : List Nat :=
  strBytes b.prevHash ++
    b.ops.flatMap (fun op =>
      strBytes op.appShape ++ strBytes op.opSig ++ strBytes op.pubKeyArtNode) ++
    strBytes b.pubKeyMiner ++ leBytes 4 (goUint32OfInt b.index) ++ leBytes 4 (b.nonce % mod32)

/-- Stated from the spec's words: the block-hash is the hex MD5 of the
canonical serialization. -/
def specBlockHash (b : Block) : String := md5hex (specBlockSerialization b)

/-- Stated from the spec's words (claim C5): every non-initial block of a
chain points to the hash of its predecessor. -/
def specParentLinkedB : List Block → Bool
  | [] => true
  | [_] => true
  | a :: b :: rest => (b.prevHash == blockHashOf a) && specParentLinkedB (b :: rest)

/-! ## Concrete fixtures used by witnesses and counterexamples -/

/-- Settings with both difficulties zero (spec §8 end-to-end scenarios),
no-op reward 30, op reward 50. -/
def sA : MinerSettings := ⟨"g", 50, 30, 0, 0⟩

/-- The first block the miner generates under `sA` with public key "PK". -/
def fbA : Block := generateFirstBlock sA "PK"

/-- A miner state holding just the first block, with the `currInkMined`
global refreshed by the main loop (30 = one no-op reward). -/
def stA : MinerState := ⟨[fbA], sA, "KP", "PK", 30⟩

/-- The spec §8 scenario-2 request: a 21-ink path with 30 ink mined. -/
def argsA : AddShapeStruct := ⟨1, 0, "M 0 0 l 10 0 l 0 10 z", "red", "red", "APK"⟩

/-- An operation whose signature verifies under producer key "k"
(`OpSig = md5(pubKeyMiner + AppShape)`). -/
def opC1 : Operation := ⟨"s", "05f39d8aef6a4f54dcc0ce5ab4385742", "a"⟩

example : computeNonceSecretHash "k" "s" = opC1.opSig := by decide

/-- A block flagged no-op that nevertheless carries one operation. -/
def bC1 : Block := ⟨"p", 0, [opC1], true, "k", 1, [], [], []⟩

/-- Settings whose no-op difficulty is 0 but whose op difficulty 33 exceeds
the 32 hex digits of an MD5 hash. -/
def sC1 : MinerSettings := ⟨"g", 50, 30, 33, 0⟩

/-- A no-op block carrying an ink account with `spent > mined` and
`remain ≠ mined − spent`. -/
def bC2 : Block := ⟨"p", 0, [], true, "m", 1, [("m", ⟨0, 5, 7⟩)], [], []⟩

/-- Two index-1 blocks; the second one's parent hash is garbage. -/
def bC5a : Block := ⟨"p", 0, [], true, "k", 1, [], [], []⟩

/-- Second block of the C5 chain: `Index = 1` dodges the parent-link test. -/
def bC5b : Block := ⟨"garbage", 0, [], true, "k", 1, [], [], []⟩

/-- A block with a single operation (for the GetShapes write loop). -/
def opX : Operation := ⟨"svg", "sig", "apk"⟩

/-- A one-operation tip block. -/
def blkX : Block := ⟨"p", 0, [opX], true, "k", 1, [], [], []⟩

/-- A miner state whose tip is `blkX`. -/
def stX : MinerState := ⟨[blkX], sA, "KP", "PK", 0⟩

/-- The heap-model first block: references map objects 0, 0, 0. -/
def hb0 : HBlock := ⟨"g", 0, [], true, "PK", 1, 0, 0, 0⟩

/-- The heap matching `hb0`: one ink map, one canvas map, one ops map. -/
def hp0 : Heap := ⟨[[("PK", ⟨30, 0, 30⟩)]], [[]], [[]]⟩

/-! ## Helper lemmas -/

/-- A successful nonce search returns the hash of the block string with the
decimal nonce, satisfying the difficulty, with the counter within fuel. -/
lemma findNonce_eq_some {bs : String} {d : Nat} :
    ∀ {fuel j0 h j}, findNonce bs d fuel j0 = some (h, j) →
      h = computeNonceSecretHash bs (Nat.repr j) ∧ hasNZeros h d = true ∧
        j0 ≤ j ∧ j < j0 + fuel := by
  intro fuel
  induction fuel with
  | zero => intro j0 h j heq; simp [findNonce] at heq
  | succ n ih =>
    intro j0 h j heq
    unfold findNonce at heq
    by_cases hz : hasNZeros (computeNonceSecretHash bs (Nat.repr j0)) d = true
    · simp [hz] at heq
      obtain ⟨h1, h2⟩ := heq
      subst h1; subst h2
      exact ⟨rfl, hz, Nat.le_refl _, by omega⟩
    · simp [hz] at heq
      obtain ⟨h1, h2, h3, h4⟩ := ih heq
      exact ⟨h1, h2, by omega, by omega⟩

/-- `calculateHash` version of `findNonce_eq_some`. -/
lemma calculateHash_eq_some {fuel : Nat} {b : Block} {d : Nat} {h : String} {j : Nat}
    (heq : calculateHash fuel b d = some (h, j)) :
    h = computeNonceSecretHash (blkToString b) (Nat.repr j) ∧ hasNZeros h d = true ∧
      j < fuel := by
  obtain ⟨h1, h2, _, h4⟩ := findNonce_eq_some heq
  exact ⟨h1, h2, by omega⟩

/-- `blkToString` ignores the nonce field. -/
lemma blkToString_set_nonce (b : Block) (n : Nat) :
    blkToString { b with nonce := n } = blkToString b := rfl

/-- `goParseUint32` is the identity below `2^32`. -/
lemma goParseUint32_lt {j : Nat} (h : j < mod32) : goParseUint32 j = j := by
  simp [goParseUint32, h]

/-- Membership after `mapSet`: an entry is either the written binding or an
old entry. -/
lemma mem_mapSet {V : Type} {m : GoMap V} {k : String} {v : V} {p : String × V}
    (hp : p ∈ mapSet m k v) : p = (k, v) ∨ p ∈ m := by
  induction m with
  | nil => simpa [mapSet] using hp
  | cons q rest ih =>
    by_cases hk : q.1 = k
    · simp [mapSet, hk] at hp
      rcases hp with hp | hp
      · exact Or.inl hp
      · exact Or.inr (List.mem_cons_of_mem _ hp)
    · simp [mapSet, hk] at hp
      rcases hp with hp | hp
      · exact Or.inr (by simp [hp])
      · rcases ih hp with h | h
        · exact Or.inl h
        · exact Or.inr (List.mem_cons_of_mem _ h)

/-- A `mapFind?` hit is a map entry. -/
lemma mapFind?_mem {V : Type} {m : GoMap V} {k : String} {v : V}
    (h : mapFind? m k = some v) : (k, v) ∈ m := by
  unfold mapFind? at h
  cases hf : m.find? (fun p => p.1 == k) with
  | none => simp [hf] at h
  | some p =>
    simp [hf] at h
    have hmem := List.mem_of_find?_eq_some hf
    have hkey := List.find?_some hf
    have : p.1 = k := by simpa using hkey
    have : p = (k, v) := by
      cases p; simp_all
    rwa [this] at hmem

/-- Writing an invariant-satisfying account preserves the map invariant. -/
lemma inkMapInv_mapSet {m : InkMap} {k : String} {v : InkAccount}
    (hm : inkMapInv m) (hv : inkInv v) : inkMapInv (mapSet m k v) := by
  intro p hp
  rcases mem_mapSet hp with h | h
  · rw [h]; exact hv
  · exact hm p h

/-- `List.getD` after `List.set` at a different index. -/
lemma getD_set_ne {α : Type} (l : List α) (i j : Nat) (v d : α) (h : i ≠ j) :
    (l.set i v).getD j d = l.getD j d := by
  induction l generalizing i j with
  | nil => simp [List.set]
  | cons a rest ih =>
    cases i with
    | zero =>
      cases j with
      | zero => omega
      | succ j' => simp [List.set, List.getD]
    | succ i' =>
      cases j with
      | zero => simp [List.set, List.getD]
      | succ j' =>
        simp only [List.set, List.getD_cons_succ]
        exact ih i' j' (by omega)

/-- The `GetShapes` write loop fails (panics) whenever some index reaches
the reply slice length. -/
lemma writeOpSigs_none : ∀ (ops : List Operation) (j : Nat) (dst : List String),
    1 ≤ ops.length → dst.length < j + ops.length → writeOpSigs ops j dst = none := by
  intro ops
  induction ops with
  | nil => intro j dst h1 h2; simp at h1
  | cons op rest ih =>
    intro j dst h1 h2
    unfold writeOpSigs
    by_cases hj : j < dst.length
    · simp only [hj, if_true]
      cases rest with
      | nil => simp at h2; omega
      | cons r rs =>
        apply ih
        · simp
        · simp only [List.length_set]; simp at h2 ⊢; omega
    · simp [hj]

/-- The `GetShapes` write loop terminates normally when the reply slice is
long enough. -/
lemma writeOpSigs_some : ∀ (ops : List Operation) (j : Nat) (dst : List String),
    j + ops.length ≤ dst.length → (writeOpSigs ops j dst).isSome = true := by
  intro ops
  induction ops with
  | nil => intro j dst h; simp [writeOpSigs]
  | cons op rest ih =>
    intro j dst h
    have hlen : rest.length + 1 = (op :: rest).length := by simp
    have hj : j < dst.length := by simp at h; omega
    unfold writeOpSigs
    simp only [hj, if_true]
    apply ih
    simp only [List.length_set]
    simp at h; omega

/-! ## Claim theorems -/

/-- C9: for every two invocations of the client library's `DeleteShape`,
with any `validateNum` and `shapeHash` arguments, the RPC request sent to
the miner is the same zero-valued `DelShapeArgs` record, and the miner-side
outcome it determines is therefore independent of which shape the caller
asked to delete. -/
theorem C9_delete_request_constant :
    ∀ (v1 : Nat) (s1 : String) (v2 : Nat) (s2 : String),
      clientDeleteShapeRequest v1 s1 = clientDeleteShapeRequest v2 s2 ∧
      clientDeleteShapeRequest v1 s1 = ⟨0, "", ""⟩ ∧
      ∀ st : MinerState,
        minerDeleteShape st (clientDeleteShapeRequest v1 s1) =
          minerDeleteShape st (clientDeleteShapeRequest v2 s2) :=
  fun _ _ _ _ => ⟨rfl, rfl, fun _ => rfl⟩

/-- C7: a client `AddShape` whose path string is longer than 128 bytes
fails with the shape-too-long error carrying the offending string, before
any request is built; a path of exactly 128 bytes is never rejected for
length. -/
theorem C7_shape_too_long (shapeType : Nat) (svg fill stroke pk : String)
    (reply : AddShapeReply) :
    (128 < svg.length →
      clientAddShape shapeType svg fill stroke pk reply =
        .error (.shapeSvgStringTooLong svg)) ∧
    (svg.length = 128 →
      ∀ t : String, clientAddShape shapeType svg fill stroke pk reply ≠
        .error (.shapeSvgStringTooLong t)) := by
  constructor
  · intro h
    simp [clientAddShape, h]
  · intro h t
    have h1 : ¬ 128 < svg.length := by omega
    simp only [clientAddShape, h1, if_false]
    by_cases h2 : stroke = fill ∧ fill = "transparent"
    · simp [h2]
    · simp [h2]

/-- A 129-byte path string. -/
def strLen129 : String := String.mk (List.replicate 129 'a')

/-- A 128-byte path string. -/
def strLen128 : String := String.mk (List.replicate 128 'a')

/-- Witness for C7 at concrete 129- and 128-byte paths. -/
theorem C7_witness :
    clientAddShape 0 strLen129 "red" "blue" "APK" default =
      .error (.shapeSvgStringTooLong strLen129) ∧
    clientAddShape 0 strLen128 "red" "blue" "APK" default ≠
      .error (.shapeSvgStringTooLong strLen128) :=
  ⟨(C7_shape_too_long 0 strLen129 "red" "blue" "APK" default).1 (by decide),
   (C7_shape_too_long 0 strLen128 "red" "blue" "APK" default).2 (by decide) strLen128⟩

/-- The chain after the scenario-2 `AddShape` on the one-block state
`stA`: the first block plus the mined op block carrying the new shape. -/
def chainY : List Block :=
  (addShapeChainOf (minerAddShape 2 stA argsA (.ok (21, [])))).getD []

/-- The chain after the main loop then mines one no-op block on `chainY`
(a fresh empty op list; the canvas-operations map is carried forward). -/
def chainY2 : List Block := (mineNoOpBlocks 2 sA "PK" "PK" chainY).getD []

/-- The miner state at the `chainY2` tip. -/
def stY : MinerState := ⟨chainY2, sA, "KP", "PK", 30⟩

/-- The hash of the shape added by the scenario-2 `AddShape`. -/
def shapeHashY : String := computeNonceSecretHash (svgPathString argsA) "PK"

/-- C8 (amended): the miner's `DeleteShape` scans only the tip block's
operation list.  When the first operation there with the requested
signature exists, a request from a different art-node key fails with the
shape-owner error and a request from the adding key succeeds, returning
the remaining ink read from the tip block; when the tip block does not
list the operation — in particular after any subsequent no-op block,
whose operation list is empty — the call fails with the invalid-shape-hash
error for owner and foreigner alike, even if the shape exists on the
chain and was never deleted. -/
theorem C8_delete_tip_scan (st : MinerState) (args : DelShapeArgs)
    (lastBlk : Block) (hlast : st.blockChain.getLast? = some lastBlk) :
    (∀ op, findOpBySig lastBlk.ops args.shapeHash = some op →
      (args.artNodePK ≠ op.pubKeyArtNode →
        minerDeleteShape st args = .error (.shapeOwner args.shapeHash)) ∧
      (args.artNodePK = op.pubKeyArtNode →
        minerDeleteShape st args =
          .ok (mapGetD lastBlk.minerInks st.myKeyPairInString default).inkRemain)) ∧
    (findOpBySig lastBlk.ops args.shapeHash = none →
      minerDeleteShape st args = .error (.invalidShapeHash args.shapeHash)) := by
  constructor
  · intro op hfind
    constructor
    · intro h
      simp [minerDeleteShape, hlast, hfind, h]
    · intro h
      simp [minerDeleteShape, hlast, hfind, h]
  · intro hnone
    simp [minerDeleteShape, hlast, hnone]

/-- Witness for C8: on the one-operation tip `blkX` a foreign key gets the
owner error and the submitting key the remaining ink; on the post-no-op
tip of `stY` the owner's delete gets the invalid-shape-hash error. -/
theorem C8_delete_tip_scan_witness :
    minerDeleteShape stX ⟨0, "sig", "q"⟩ = .error (.shapeOwner "sig") ∧
    minerDeleteShape stX ⟨0, "sig", "apk"⟩ =
      .ok (mapGetD blkX.minerInks stX.myKeyPairInString default).inkRemain ∧
    minerDeleteShape stY ⟨0, shapeHashY, "APK"⟩ =
      .error (.invalidShapeHash shapeHashY) :=
  ⟨((C8_delete_tip_scan stX ⟨0, "sig", "q"⟩ blkX (by decide)).1 opX (by decide)).1
      (by decide),
   ((C8_delete_tip_scan stX ⟨0, "sig", "apk"⟩ blkX (by decide)).1 opX (by decide)).2
      (by decide),
   (C8_delete_tip_scan stY ⟨0, shapeHashY, "APK"⟩
      ((chainY2.getLast?).getD default) (by decide)).2 (by decide)⟩

/-- Counterexample for C8 as stated: in the state the code itself produces
— the scenario-2 `AddShape` followed by one mined no-op block — the shape
is on the chain (added by art-node key "APK", recorded in the tip's
canvas-operations map, never deleted), yet `DeleteShape` answers the
invalid-shape-hash error both to the adding key (the claim says it
succeeds) and to a foreign key (the claim says shape-owner-mismatch),
because the no-op tip block's operation list is empty. -/
theorem C8_counterexample :
    (findOpBySig (chainY.getD 1 default).ops shapeHashY).map
      Operation.pubKeyArtNode = some "APK" ∧
    ((chainY2.getLast?).getD default).ops = [] ∧
    mapGetD ((chainY2.getLast?).getD default).canvasOperations "KP" [] =
      [svgPathString argsA ++ ":" ++ shapeHashY] ∧
    minerDeleteShape stY ⟨0, shapeHashY, "APK"⟩ =
      .error (.invalidShapeHash shapeHashY) ∧
    minerDeleteShape stY ⟨0, shapeHashY, "q"⟩ =
      .error (.invalidShapeHash shapeHashY) := by decide

/-- C10: the miner's `GetShapes` writes each operation signature into the
caller-supplied reply slice by index and never grows it: with at least one
operation and a reply slice shorter than the operation count the write
indexes out of bounds (a panic, `none`), and it terminates normally exactly
when the slice is at least as long as the operation count; accordingly the
handler itself panics on the matching-tip branch under those conditions. -/
theorem C10_getshapes_bounds :
    (∀ (ops : List Operation) (dst : List String),
      (1 ≤ ops.length → dst.length < ops.length → writeOpSigsAt ops dst = none) ∧
      (ops.length ≤ dst.length → (writeOpSigsAt ops dst).isSome = true)) ∧
    (∀ (fuel : Nat) (st : MinerState) (bh : String) (dst : List String)
      (lastBlk : Block),
      st.blockChain.getLast? = some lastBlk →
      (calculateHash fuel lastBlk (flagDifficulty st.settings lastBlk)).map Prod.fst =
        some bh →
      1 ≤ lastBlk.ops.length → dst.length < lastBlk.ops.length →
      minerGetShapes fuel st bh dst = none) := by
  constructor
  · intro ops dst
    constructor
    · intro h1 h2
      exact writeOpSigs_none ops 0 dst h1 (by omega)
    · intro h
      exact writeOpSigs_some ops 0 dst (by omega)
  · intro fuel st bh dst lastBlk hlast hmap hops hdst
    have hne : st.blockChain ≠ [] := by
      intro hnil; rw [hnil] at hlast; simp at hlast
    have hlen : ¬ st.blockChain.length = 0 := by
      intro h0; exact hne (List.length_eq_zero.mp h0)
    cases hc : calculateHash fuel lastBlk (flagDifficulty st.settings lastBlk) with
    | none => rw [hc] at hmap; simp at hmap
    | some pr =>
      rw [hc] at hmap
      simp at hmap
      have hw : writeOpSigsAt lastBlk.ops dst = none :=
        writeOpSigs_none lastBlk.ops 0 dst hops (by omega)
      simp [minerGetShapes, hlen, hlast, hc, hmap, hw]

/-- The hash of the tip block `blkX` under its flag difficulty. -/
def bhX : String :=
  ((calculateHash 1 blkX (flagDifficulty stX.settings blkX)).map Prod.fst).getD ""

/-- Witness for C10: one operation, empty and singleton reply slices, and
the handler panic at the concrete tip. -/
theorem C10_witness :
    writeOpSigsAt [opX] [] = none ∧
    (writeOpSigsAt [opX] ["w"]).isSome = true ∧
    minerGetShapes 1 stX bhX [] = none :=
  ⟨((C10_getshapes_bounds.1 [opX] []).1 (by decide) (by decide)),
   ((C10_getshapes_bounds.1 [opX] ["w"]).2 (by decide)),
   (C10_getshapes_bounds.2 1 stX bhX [] blkX (by decide) (by decide) (by decide)
      (by decide))⟩

/-- `strBytes` distributes over string concatenation. -/
lemma strBytes_append (s t : String) : strBytes (s ++ t) = strBytes s ++ strBytes t := by
  cases s with
  | mk a =>
    cases t with
    | mk b => simp [strBytes, String.append]

/-- C4 (amended): the byte string hashed to obtain a block's hash is
parent-hash, then the operation records in order, then the producer key,
then the UTF-8 rune of the depth (Go `string(b.Index)`), then the decimal
string of the nonce; the block-hash is the hex MD5 of that. -/
theorem C4_serialization (b : Block) :
    blockHashOf b =
      md5hex (strBytes b.prevHash ++ strBytes (convertOpToString b.ops) ++
        strBytes b.pubKeyMiner ++ strBytes (goRuneString b.index) ++
        strBytes (Nat.repr b.nonce)) := by
  simp [blockHashOf, computeNonceSecretHash, md5hexS, blkToString, strBytes_append]

/-- Counterexample for C4 as stated: at a concrete block, the hex MD5 of
the spec's serialization (depth and nonce as little-endian 32-bit fields)
differs from the hash the code computes. -/
theorem C4_counterexample : blockHashOf bC5a ≠ specBlockHash bC5a := by decide

/-- C5 (amended): a chain received over `SendBlockchain` replaces the local
one exactly when it is strictly longer and passes the code's validation:
per-miner mined-at-least-spent, and per block the first-found nonce, the
operation signatures, and — only for blocks with index above 1 — the link
to the hash of the preceding list entry. -/
theorem C5_chain_adoption (fuel : Nat) (s : MinerSettings) (locChain bc r : List Block)
    (h : sendBlockchain fuel s locChain bc = some r) :
    r = if isSentChainLonger bc locChain = true ∧ validateSufficientInkAll s bc = true ∧
        validateBlockChain fuel s bc = some true then bc else locChain := by
  unfold sendBlockchain at h
  by_cases hcond : isSentChainLonger bc locChain = true ∧
      validateSufficientInkAll s bc = true ∧ validateBlockChain fuel s bc = some true
  · rw [if_pos hcond]
    obtain ⟨h1, h2, h3⟩ := hcond
    rw [if_pos h1, if_pos h2, h3] at h
    simp at h
    exact h.symm
  · rw [if_neg hcond]
    by_cases h1 : isSentChainLonger bc locChain = true
    · rw [if_pos h1] at h
      by_cases h2 : validateSufficientInkAll s bc = true
      · rw [if_pos h2] at h
        cases hv : validateBlockChain fuel s bc with
        | none => rw [hv] at h; simp at h
        | some v =>
          rw [hv] at h
          cases v with
          | true => exact absurd ⟨h1, h2, hv⟩ hcond
          | false => simp at h; exact h.symm
      · rw [if_neg h2] at h; simp at h; exact h.symm
    · rw [if_neg h1] at h; simp at h; exact h.symm

/-- Witness for C5: the valid singleton chain `[bC5a]` is adopted over an
empty local chain. -/
theorem C5_witness : (sendBlockchain 1 sA [] [bC5a]).getD [] = [bC5a] :=
  (C5_chain_adoption 1 sA [] [bC5a] ((sendBlockchain 1 sA [] [bC5a]).getD [])
    (by decide)).trans (if_pos ⟨by decide, by decide, by decide⟩)

/-- Counterexample for C5 as stated: the two-block chain whose second block
has a garbage parent hash but carries `Index = 1` is adopted, although its
parent links do not validate — the code checks the link only for blocks
with index above 1. -/
theorem C5_counterexample :
    sendBlockchain 1 sA [] [bC5a, bC5b] = some [bC5a, bC5b] ∧
    specParentLinkedB [bC5a, bC5b] = false := by decide

/-- A mined block: when `C` is `B` with its nonce set from a successful
`calculateHash` search at difficulty `d`, then `C` hashes with `d` suffix
zeros. -/
lemma minedBlock_pow {fuel d : Nat} {B C : Block} {h0 : String} {j : Nat}
    (hfuel : fuel ≤ mod32) (hc : calculateHash fuel B d = some (h0, j))
    (hC : C = { B with nonce := goParseUint32 j }) :
    hasNZeros (blockHashOf C) d = true := by
  subst hC
  obtain ⟨hh, hz, hj⟩ := calculateHash_eq_some hc
  have hjm : j < mod32 := lt_of_lt_of_le hj hfuel
  have heq : blockHashOf { B with nonce := goParseUint32 j } = h0 := by
    rw [goParseUint32_lt hjm, hh]; rfl
  rw [heq]; exact hz

/-- A block that passes `validateBlockHashNonce` hashes with the suffix
zeros of its flag difficulty. -/
lemma validateBlockHashNonce_true {fuel : Nat} {s : MinerSettings} {b : Block}
    {hv : String} (h : validateBlockHashNonce fuel s b = some (true, hv)) :
    hasNZeros (blockHashOf b) (flagDifficulty s b) = true := by
  unfold validateBlockHashNonce at h
  by_cases hcond : 1 < b.index ∧ ¬ hasNZeros b.prevHash (flagDifficulty s b)
  · rw [if_pos hcond] at h; simp at h
  · rw [if_neg hcond] at h
    cases hc : calculateHash fuel b (flagDifficulty s b) with
    | none => rw [hc] at h; simp at h
    | some pr =>
      obtain ⟨p1, p2⟩ := pr
      rw [hc] at h
      simp at h
      obtain ⟨hj, _⟩ := h
      obtain ⟨hh, hz, _⟩ := calculateHash_eq_some hc
      unfold blockHashOf
      rw [← hj, ← hh]
      exact hz

/-- Every block of a chain on which `validateBlockChain`'s loop returns
true passes the proof-of-work check at its flag difficulty. -/
lemma validateBlockChainAux_true {fuel : Nat} {s : MinerSettings} :
    ∀ (bc : List Block) (hv : String),
      validateBlockChainAux fuel s hv bc = some true →
      ∀ b ∈ bc, hasNZeros (blockHashOf b) (flagDifficulty s b) = true := by
  intro bc
  induction bc with
  | nil => intro hv _ b hb; simp at hb
  | cons b0 rest ih =>
    intro hv h b hb
    unfold validateBlockChainAux at h
    by_cases hcond : 1 < b0.index ∧ hv ≠ b0.prevHash
    · rw [if_pos hcond] at h; simp at h
    · rw [if_neg hcond] at h
      cases hn : validateBlockHashNonce fuel s b0 with
      | none => rw [hn] at h; simp at h
      | some pr =>
        rw [hn] at h
        obtain ⟨vn, hv'⟩ := pr
        by_cases hbad : ¬ vn = true ∨ ¬ validateBlockOpSigs b0 = true
        · simp only [hbad, if_true] at h; simp at h
        · simp only [hbad, if_false] at h
          push_neg at hbad
          rcases List.mem_cons.mp hb with hb0 | hbrest
          · subst hb0
            have : vn = true := hbad.1
            subst this
            exact validateBlockHashNonce_true hn
          · exact ih hv' h b hbrest

/-- C1 (amended): every locally mined no-op block extending a nonempty
chain hashes with the no-op difficulty's suffix zeros; every block mined by
`AddShape` hashes with the op difficulty's suffix zeros; and a chain
adopted from a peer only contains blocks hashing with the suffix zeros of
the difficulty selected by each block's `NoOpBlock` flag. -/
theorem C1_difficulty :
    (∀ (fuel : Nat) (s : MinerSettings) (mp kp : String) (chain : List Block)
      (blk : Block), fuel ≤ mod32 → 1 ≤ chain.length →
      generateNoOpBlock fuel s mp kp chain = some blk →
      blk.noOpBlock = true ∧
        hasNZeros (blockHashOf blk) s.powDifficultyNoOpBlock = true) ∧
    (∀ (fuel : Nat) (st : MinerState) (args : AddShapeStruct) (spent : Int)
      (cmap : CanvasMap) (st' : MinerState) (reply : AddShapeReply) (nb : Block),
      fuel ≤ mod32 →
      minerAddShape fuel st args (.ok (spent, cmap)) = some (.ok (st', reply)) →
      st'.blockChain.getLast? = some nb →
      nb.noOpBlock = false ∧
        hasNZeros (blockHashOf nb) st.settings.powDifficultyOpBlock = true) ∧
    (∀ (fuel : Nat) (s : MinerSettings) (locChain bc r : List Block),
      sendBlockchain fuel s locChain bc = some r →
      r = locChain ∨ ∀ b ∈ r, hasNZeros (blockHashOf b) (flagDifficulty s b) = true) := by
  refine ⟨?_, ?_, ?_⟩
  · intro fuel s mp kp chain blk hfuel hlen heq
    unfold generateNoOpBlock at heq
    rw [if_neg (by omega : ¬ chain.length < 1)] at heq
    simp only [] at heq
    split at heq
    · exact absurd heq (by simp)
    · split at heq
      · exact absurd heq (by simp)
      · next h0 j hc2 =>
        injection heq with heq'
        constructor
        · rw [← heq']
        · rw [← heq']
          exact minedBlock_pow hfuel hc2 rfl
  · intro fuel st args spent cmap st' reply nb hfuel heq hlast
    unfold minerAddShape at heq
    by_cases hempty : st.blockChain.length = 0
    · rw [if_pos hempty] at heq; simp at heq
    · rw [if_neg hempty] at heq
      simp only [] at heq
      split at heq
      · exact absurd heq (by simp)
      · split at heq
        · exact absurd heq (by simp)
        · next h0 j hc2 =>
          simp at heq
          obtain ⟨hst, _⟩ := heq
          rw [← hst] at hlast
          simp only [List.getLast?_concat, Option.some.injEq] at hlast
          constructor
          · rw [← hlast]
          · rw [← hlast]
            exact minedBlock_pow hfuel hc2 rfl
  · intro fuel s locChain bc r h
    unfold sendBlockchain at h
    by_cases h1 : isSentChainLonger bc locChain = true
    · rw [if_pos h1] at h
      by_cases h2 : validateSufficientInkAll s bc = true
      · rw [if_pos h2] at h
        cases hv : validateBlockChain fuel s bc with
        | none => rw [hv] at h; simp at h
        | some v =>
          rw [hv] at h
          simp at h
          cases v with
          | true =>
            right
            have hr : r = bc := by simpa using h.symm
            rw [hr]
            exact validateBlockChainAux_true bc "" hv
          | false => left; simpa using h.symm
      · rw [if_neg h2] at h; left; simpa using h.symm
    · rw [if_neg h1] at h; left; simpa using h.symm

/-- Witness for C1 at the concrete fixtures (no-op mining on `[fbA]`, the
scenario-2 `AddShape`, and adoption of `[bC5a]`). -/
theorem C1_witness :
    (((generateNoOpBlock 2 sA "PK" "PK" [fbA]).getD default).noOpBlock = true ∧
      hasNZeros (blockHashOf ((generateNoOpBlock 2 sA "PK" "PK" [fbA]).getD default))
        sA.powDifficultyNoOpBlock = true) ∧
    (((((addShapeChainOf (minerAddShape 2 stA argsA (.ok (21, [])))).getD
        []).getLast?).getD default).noOpBlock = false ∧
      hasNZeros (blockHashOf (((((addShapeChainOf (minerAddShape 2 stA argsA
        (.ok (21, [])))).getD []).getLast?).getD default)))
        stA.settings.powDifficultyOpBlock = true) ∧
    ((sendBlockchain 1 sA [] [bC5a]).getD [] = [] ∨
      ∀ b ∈ (sendBlockchain 1 sA [] [bC5a]).getD [],
        hasNZeros (blockHashOf b) (flagDifficulty sA b) = true) := by
  refine ⟨?_, ?_, ?_⟩
  · exact C1_difficulty.1 2 sA "PK" "PK" [fbA]
      ((generateNoOpBlock 2 sA "PK" "PK" [fbA]).getD default) (by decide) (by decide)
      (by decide)
  · exact C1_difficulty.2.1 2 stA argsA 21 []
      ({ stA with blockChain := (addShapeChainOf (minerAddShape 2 stA argsA
        (.ok (21, [])))).getD [] })
      ((addShapeReplyOf (minerAddShape 2 stA argsA (.ok (21, [])))).getD default)
      (((((addShapeChainOf (minerAddShape 2 stA argsA (.ok (21, [])))).getD
        []).getLast?).getD default)) (by decide) (by decide) (by decide)
  · exact C1_difficulty.2.2 1 sA [] [bC5a] ((sendBlockchain 1 sA [] [bC5a]).getD [])
      (by decide)

/-- Counterexample for C1 as stated: a peer chain containing a block whose
`NoOpBlock` flag is set although it carries an operation is accepted after
validation at the no-op difficulty (0), while the claim's difficulty for an
operation-carrying block — `PoWDifficultyOpBlock = 33` — is not met by its
hash. -/
theorem C1_counterexample :
    sendBlockchain 1 sC1 [] [bC1] = some [bC1] ∧
    bC1.ops ≠ [] ∧
    hasNZeros (blockHashOf bC1) sC1.powDifficultyOpBlock = false := by decide

/-- Go `uint32(i)` is the identity on in-range non-negative ints. -/
lemma goUint32OfInt_eq {i : Int} (h0 : 0 ≤ i) (h1 : i < (mod32 : Int)) :
    goUint32OfInt i = i.toNat := by
  unfold goUint32OfInt
  rw [Int.emod_eq_of_lt h0 h1]

/-- C2 (amended): the ink-account invariant `spent ≤ mined` and
`remaining = mined − spent` holds for every account of the first locally
generated block; it is preserved by no-op mining (absent `uint32` overflow
of the credited account); and it is restored for the account `AddShape`
rewrites provided the cached `currInkMined` global equals mined-minus-spent
of the chain traversal and the shape cost does not exceed it.  Accounts
carried by blocks adopted from peers are not covered (see the
counterexample). -/
theorem C2_ink_invariant :
    (∀ (s : MinerSettings) (mp : String),
      inkMapInv (generateFirstBlock s mp).minerInks) ∧
    (∀ (fuel : Nat) (s : MinerSettings) (mp kp : String) (chain : List Block)
      (blk : Block),
      generateNoOpBlock fuel s mp kp chain = some blk →
      1 ≤ chain.length →
      inkMapInv ((chain.getLast?).getD default).minerInks →
      (mapGetD ((chain.getLast?).getD default).minerInks kp default).inkMined +
        s.inkPerNoOpBlock < mod32 →
      inkMapInv blk.minerInks) ∧
    (∀ (fuel : Nat) (st : MinerState) (args : AddShapeStruct) (spent : Int)
      (cmap : CanvasMap) (st' : MinerState) (reply : AddShapeReply),
      minerAddShape fuel st args (.ok (spent, cmap)) = some (.ok (st', reply)) →
      inkMapInv ((st.blockChain.getLast?).getD default).minerInks →
      (totalInkSpentAndMinedByMiner st.settings st.blockChain st.myPubKeyStr).1 ≤
        (totalInkSpentAndMinedByMiner st.settings st.blockChain st.myPubKeyStr).2 →
      st.currInkMined =
        (totalInkSpentAndMinedByMiner st.settings st.blockChain st.myPubKeyStr).2 -
          (totalInkSpentAndMinedByMiner st.settings st.blockChain st.myPubKeyStr).1 →
      (totalInkSpentAndMinedByMiner st.settings st.blockChain st.myPubKeyStr).2 <
        mod32 →
      0 ≤ spent → spent ≤ (st.currInkMined : Int) →
      ∀ nb, st'.blockChain.getLast? = some nb → inkMapInv nb.minerInks) := by
  refine ⟨?_, ?_, ?_⟩
  · intro s mp p hp
    simp [generateFirstBlock] at hp
    rw [hp]
    constructor
    · exact Nat.zero_le _
    · simp
  · intro fuel s mp kp chain blk heq hlen hinv hover
    unfold generateNoOpBlock at heq
    rw [if_neg (by omega : ¬ chain.length < 1)] at heq
    simp only [] at heq
    split at heq
    · exact absurd heq (by simp)
    · split at heq
      · exact absurd heq (by simp)
      · next h0 j hc2 =>
        injection heq with heq'
        rw [← heq']
        simp only []
        cases hf : mapFind? ((chain.getLast?).getD default).minerInks kp with
        | some acc =>
          simp only []
          have hacc : inkInv acc := hinv _ (mapFind?_mem hf)
          have haccv : (mapGetD ((chain.getLast?).getD default).minerInks kp
              default) = acc := by simp [mapGetD, hf]
          rw [haccv] at hover
          apply inkMapInv_mapSet hinv
          obtain ⟨ha1, ha2⟩ := hacc
          have hm : (acc.inkMined + s.inkPerNoOpBlock) % mod32 =
              acc.inkMined + s.inkPerNoOpBlock := Nat.mod_eq_of_lt hover
          have hr : (acc.inkRemain + s.inkPerNoOpBlock) % mod32 =
              acc.inkRemain + s.inkPerNoOpBlock := Nat.mod_eq_of_lt (by omega)
          constructor
          · simp only [hm]; omega
          · simp only [hm, hr]; omega
        | none =>
          simp only []
          apply inkMapInv_mapSet hinv
          constructor
          · exact Nat.zero_le _
          · simp
  · intro fuel st args spent cmap st' reply heq hinv ht1 ht2 ht3 hs0 hs1 nb hlast
    unfold minerAddShape at heq
    by_cases hempty : st.blockChain.length = 0
    · rw [if_pos hempty] at heq; simp at heq
    · rw [if_neg hempty] at heq
      simp only [] at heq
      split at heq
      · exact absurd heq (by simp)
      · split at heq
        · exact absurd heq (by simp)
        · next h0 j hc2 =>
          simp at heq
          obtain ⟨hst, _⟩ := heq
          rw [← hst] at hlast
          simp only [List.getLast?_concat, Option.some.injEq] at hlast
          rw [← hlast]
          simp only []
          apply inkMapInv_mapSet hinv
          have hsp : spent = (spent.toNat : Int) := (Int.toNat_of_nonneg hs0).symm
          have hcm : (st.currInkMined : Int) < (mod32 : Int) := by
            have : st.currInkMined < mod32 := by omega
            exact_mod_cast this
          have hg1 : goUint32OfInt spent = spent.toNat :=
            goUint32OfInt_eq hs0 (lt_of_le_of_lt hs1 hcm)
          have hg2 : goUint32OfInt ((st.currInkMined : Int) - spent) =
              ((st.currInkMined : Int) - spent).toNat :=
            goUint32OfInt_eq (by omega) (by omega)
          have hsn : spent.toNat ≤ st.currInkMined := by omega
          have htn : ((st.currInkMined : Int) - spent).toNat =
              st.currInkMined - spent.toNat := by omega
          constructor
          · simp only [hg1]
            rw [Nat.mod_eq_of_lt (by omega)]
            omega
          · simp only [hg1, hg2, htn]
            rw [Nat.mod_eq_of_lt (by omega)]
            omega

/-- Witness for C2 at the concrete fixtures. -/
theorem C2_witness :
    inkMapInv (generateFirstBlock sA "PK").minerInks ∧
    inkMapInv ((generateNoOpBlock 2 sA "PK" "PK" [fbA]).getD default).minerInks ∧
    inkMapInv (((((addShapeChainOf (minerAddShape 2 stA argsA
      (.ok (21, [])))).getD []).getLast?).getD default)).minerInks := by
  refine ⟨?_, ?_, ?_⟩
  · exact C2_ink_invariant.1 sA "PK"
  · exact C2_ink_invariant.2.1 2 sA "PK" "PK" [fbA]
      ((generateNoOpBlock 2 sA "PK" "PK" [fbA]).getD default) (by decide) (by decide)
      (by decide) (by decide)
  · exact C2_ink_invariant.2.2 2 stA argsA 21 []
      ({ stA with blockChain := (addShapeChainOf (minerAddShape 2 stA argsA
        (.ok (21, [])))).getD [] })
      ((addShapeReplyOf (minerAddShape 2 stA argsA (.ok (21, [])))).getD default)
      (by decide) (by decide) (by decide) (by decide) (by decide) (by decide)
      (by decide)
      (((((addShapeChainOf (minerAddShape 2 stA argsA (.ok (21, [])))).getD
        []).getLast?).getD default)) (by decide)

/-- Counterexample for C2 as stated: `SendBlockchain` adopts a valid-looking
peer chain whose stored ink account has `spent > mined` and
`remain ≠ mined − spent`; the account maps of adopted blocks are never
checked. -/
theorem C2_counterexample :
    sendBlockchain 1 sA [] [bC2] = some [bC2] ∧
    ("m", InkAccount.mk 0 5 7) ∈ bC2.minerInks ∧
    ¬ inkInv (InkAccount.mk 0 5 7) := by decide

/-- C3 (the code at the failing input): for the spec §8 scenario — 30 ink
mined, a 21-ink shape — the miner's reply carries the shape hash, the block
hash and `remaining = 9`, but the client library's `AddShape` never copies
the reply into its named return values and hands `("", "", 0)` to the
application. -/
theorem C3_reply_discarded :
    ((addShapeReplyOf (minerAddShape 2 stA argsA (.ok (21, [])))).getD
      default).inkRemaining = 9 ∧
    ((addShapeReplyOf (minerAddShape 2 stA argsA (.ok (21, [])))).getD
      default).shapeHash ≠ "" ∧
    ((addShapeReplyOf (minerAddShape 2 stA argsA (.ok (21, [])))).getD
      default).blockHash ≠ "" ∧
    clientAddShape 0 "M 0 0 l 10 0 l 0 10 z" "red" "red" "APK"
      ((addShapeReplyOf (minerAddShape 2 stA argsA (.ok (21, [])))).getD default) =
      .ok ⟨⟨1, 0, "M 0 0 l 10 0 l 0 10 z", "red", "red", "APK"⟩, "", "", 0⟩ := by
  decide

/-- C6 (amended): appending a no-op block never touches the previously
inserted block records themselves — the chain only grows, and the new block
shares the previous tip's three map references — but the append writes the
updated ink map in place through the shared reference (only that one heap
cell changes, and no canvas cell). -/
theorem C6_append_frame (fuel : Nat) (s : MinerSettings) (mp kp : String)
    (chain : List HBlock) (hp : Heap) (chain' : List HBlock) (hp' : Heap)
    (hlen : 1 ≤ chain.length)
    (heq : mineNoOpBlocksH fuel s mp kp chain hp = some (chain', hp')) :
    (∃ nb : HBlock, chain' = chain ++ [nb] ∧
      nb.minerInksRef = ((chain.getLast?).getD default).minerInksRef ∧
      nb.canvasInksRef = ((chain.getLast?).getD default).canvasInksRef ∧
      nb.canvasOpsRef = ((chain.getLast?).getD default).canvasOpsRef) ∧
    hp'.canvasMaps = hp.canvasMaps ∧
    hp'.canvasOpsMaps = hp.canvasOpsMaps ∧
    (∀ r, r ≠ ((chain.getLast?).getD default).minerInksRef →
      hp'.inkAt r = hp.inkAt r) := by
  unfold mineNoOpBlocksH at heq
  unfold generateNoOpBlockH at heq
  rw [if_neg (by omega : ¬ chain.length < 1)] at heq
  simp only [] at heq
  split at heq
  · exact absurd heq (by simp)
  · split at heq
    · exact absurd heq (by simp)
    · next h0 j hc2 =>
      simp at heq
      obtain ⟨hchain, hhp⟩ := heq
      refine ⟨⟨_, hchain.symm, rfl, rfl, rfl⟩, ?_, ?_, ?_⟩
      · rw [← hhp]; rfl
      · rw [← hhp]; rfl
      · intro r hr
        rw [← hhp]
        unfold Heap.setInkAt Heap.inkAt
        simp only []
        exact getD_set_ne _ _ _ _ _ (fun h => hr h.symm)

/-- Witness for C6 at the concrete one-block heap state. -/
theorem C6_witness :
    ((mineNoOpBlocksH 2 sA "PK" "PK" [hb0] hp0).getD default).2.canvasMaps =
      hp0.canvasMaps ∧
    ((mineNoOpBlocksH 2 sA "PK" "PK" [hb0] hp0).getD default).2.inkAt 5 =
      hp0.inkAt 5 := by
  obtain ⟨_, hcv, _, hink⟩ := C6_append_frame 2 sA "PK" "PK" [hb0] hp0
    ((mineNoOpBlocksH 2 sA "PK" "PK" [hb0] hp0).getD default).1
    ((mineNoOpBlocksH 2 sA "PK" "PK" [hb0] hp0).getD default).2
    (by decide) (by decide)
  exact ⟨hcv, hink 5 (by decide)⟩

/-- Counterexample for C6 as stated: after the no-op append the previously
inserted block record is unchanged, yet the ink map observed through its
(shared) map reference has changed in place — the block's ink-account view
is mutated after insertion. -/
theorem C6_counterexample :
    (((mineNoOpBlocksH 2 sA "PK" "PK" [hb0] hp0).getD default).1.getD 0 default =
      hb0) ∧
    (hb0.val ((mineNoOpBlocksH 2 sA "PK" "PK" [hb0] hp0).getD default).2).minerInks =
      [("PK", ⟨60, 0, 60⟩)] ∧
    (hb0.val hp0).minerInks = [("PK", ⟨30, 0, 30⟩)] := by decide

end BlockArt
